import Mathlib

/-!
Verification of the markdown synchronization core of the task-header
repository (`markdown_sync.py`, with the remote client of
`linear_client.py` abstracted as a capability interface).

Text is modelled as `List Char`; Python `str` values become character
lists, and Python dictionaries for issues / workflow states become
structures with `Option` fields (a missing dictionary key is `none`).
The embedding covers the ASCII fragment of Python's text predicates
(`str.lower`, the regex classes `\w`, `\s`, `str.title`), which is the
range exercised by the specification.
-/

namespace MarkdownSync

/-- Characters of a Python string. -/
abbrev Chars := List Char

/-- Character list of a Lean string literal. -/
def lit (s : String) : Chars := s.data

/-- Embedding of the whitespace class `\s` of Python `str` patterns: the
exact 29-code-point set CPython's `re` matches (`str.isspace`), namely
U+0009–U+000D, U+001C–U+001F, space, NEL, NBSP, U+1680, U+2000–U+200A,
U+2028, U+2029, U+202F, U+205F and U+3000. `\S` is its complement. -/
def pyWhitespace (c : Char) : Bool :=
  decide ((0x9 ≤ c.toNat ∧ c.toNat ≤ 0xD) ∨ (0x1C ≤ c.toNat ∧ c.toNat ≤ 0x20) ∨
    c.toNat = 0x85 ∨ c.toNat = 0xA0 ∨ c.toNat = 0x1680 ∨
    (0x2000 ≤ c.toNat ∧ c.toNat ≤ 0x200A) ∨ c.toNat = 0x2028 ∨ c.toNat = 0x2029 ∨
    c.toNat = 0x202F ∨ c.toNat = 0x205F ∨ c.toNat = 0x3000)

/-- Anchored literal match: `leadsWith p s` holds when the pattern `p` is an initial segment of `s`
(the anchored literal-match primitive used by the regex embedding). -/
def leadsWith : Chars → Chars → Bool
  | [], _ => true
  | _ :: _, [] => false
  | p :: ps, s :: ss => decide (p = s) && leadsWith ps ss

/- ### Data model

`state`, `team` and the issue fields mirror the dictionary shapes read by
`markdown_sync.py`: every access in the source goes through `dict.get`
with a default, which the embedding renders as `Option.getD`. -/

/-- The `state` sub-dictionary of an issue (`{"type": ..., "name": ...}`). -/
structure StateInfo where
  type : Option Chars := none
  name : Option Chars := none
deriving DecidableEq, Repr

/-- The `team` sub-dictionary of an issue (`{"id": ...}`). -/
structure TeamRef where
  id : Option Chars := none
deriving DecidableEq, Repr

/-- An issue dictionary as consumed by the renderer and the reconciler. -/
structure Issue where
  id : Option Chars := none
  identifier : Option Chars := none
  title : Option Chars := none
  state : Option StateInfo := none
  team : Option TeamRef := none
deriving DecidableEq, Repr

/-- A workflow state as returned by `get_workflow_states`
(the reconciler reads `s['id']` and `s['type']`). -/
structure WorkflowState where
  id : Chars
  type : Chars
deriving DecidableEq, Repr

/- ### Renderer (`_generate_markdown_content` and helpers) -/

/-- Embedding of `issue.get('state', {}).get('type', 'unstarted')` as computed in
`_group_issues_by_state` and `_get_checkbox`. -/
def stateTypeOf (i : Issue) : Chars := ((i.state.getD {}).type).getD (lit "unstarted")

/-- The fixed bucket keys of `_group_issues_by_state`, in dictionary
insertion order. -/
def categories : List Chars :=
  [lit "backlog", lit "unstarted", lit "started", lit "completed", lit "canceled"]

/-- The bucket an issue lands in: its `state.type` when that is one of the
five keys, else the explicit `unstarted` fallback. -/
def categoryOf (i : Issue) : Chars :=
  if stateTypeOf i ∈ categories then stateTypeOf i else lit "unstarted"

/-- Embedding of `_group_issues_by_state`: one bucket per category key in fixed order,
each bucket keeping the input order of its issues, empty buckets removed
(the final dict comprehension of the source). -/
def groupIssuesByState (issues : List Issue) : List (Chars × List Issue) :=
  (categories.map fun k => (k, issues.filter fun i => categoryOf i = k)).filter
    fun p => !p.2.isEmpty

/-- Embedding of `_get_checkbox`: checked exactly for `completed` / `canceled` state types. -/
def getCheckbox (i : Issue) : Chars :=
  if stateTypeOf i = lit "completed" ∨ stateTypeOf i = lit "canceled" then
    lit "- [x]"
  else
    lit "- [ ]"

/-- One line item of the document, the f-string of line 150 of the source:
`{checkbox} **{identifier}**: {title} *[{state_name}]* <!-- id:{issue_id} -->`. -/
def issueLine (i : Issue) : Chars :=
  getCheckbox i ++ lit " **" ++ i.identifier.getD (lit "N/A") ++ lit "**: " ++
    i.title.getD (lit "No title") ++ lit " *[" ++
    ((i.state.getD {}).name).getD (lit "Unknown") ++ lit "]* <!-- id:" ++
    i.id.getD [] ++ lit " -->"

/-- Python `str.title` on ASCII: a letter is uppercased when not preceded
by a letter, lowercased otherwise (applied only to the five category
keys, where it coincides with full Unicode `str.title`). -/
def pyTitleAux : Bool → Chars → Chars
  | _, [] => []
  | prevAlpha, c :: r =>
    (if prevAlpha then c.toLower else c.toUpper) :: pyTitleAux c.isAlpha r

/-- Python `str.title` (ASCII fragment). -/
def pyTitle (s : Chars) : Chars := pyTitleAux false s

/-- The `lines` list built by `_generate_markdown_content` before the final
`"\n".join`: header block, optional description, rule, then per bucket a
heading, a blank, the item lines, and a trailing blank. -/
def contentLines (timestamp title : Chars) (issues : List Issue) (description : Chars) :
    List Chars :=
  [lit "# " ++ title, [], lit "*Generated: " ++ timestamp ++ lit "*", []] ++
    (if description.isEmpty then [] else [description, []]) ++
    [lit "---", []] ++
    (groupIssuesByState issues).flatMap fun p =>
      (lit "## " ++ pyTitle p.1) :: [] :: (p.2.map issueLine ++ [[]])

/-- Python `"\n".join`. -/
def joinLines : List Chars → Chars
  | [] => []
  | [l] => l
  | l :: ls => l ++ '\n' :: joinLines ls

/-- Embedding of `_generate_markdown_content(title, issues, description)`, with the
`datetime.now()` timestamp made an explicit parameter. -/
def generateMarkdownContent (timestamp title : Chars) (issues : List Issue)
    (description : Chars) : Chars :=
  joinLines (contentLines timestamp title issues description)

/- ### Filename sanitization (`generate_team_issues_md` /
`generate_project_issues_md`) -/

/-- The non-ASCII word characters of the Latin-1 block, exactly as
CPython's Unicode `\w` matches them (`isalnum` or underscore): the
letters `ª µ º À`–`ÿ` except `× ÷`, and the numeric signs `² ³ ¹ ¼ ½ ¾`.
Code points above U+00FF are outside the modelled fragment and treated
as non-word; no theorem below depends on them. -/
def latin1WordChar (c : Char) : Bool :=
  decide ((0xC0 ≤ c.toNat ∧ c.toNat ≤ 0xFF ∧ c.toNat ≠ 0xD7 ∧ c.toNat ≠ 0xF7) ∨
    c.toNat = 0xAA ∨ c.toNat = 0xB5 ∨ c.toNat = 0xBA ∨
    c.toNat = 0xB2 ∨ c.toNat = 0xB3 ∨ c.toNat = 0xB9 ∨
    c.toNat = 0xBC ∨ c.toNat = 0xBD ∨ c.toNat = 0xBE)

/-- Embedding of the regex class `\w` used by `re.sub(r'[^\w\-]', '_', ...)`
on Python `str`: ASCII word characters plus the Latin-1 word characters.
Exact for code points up to U+00FF. -/
def pyWordChar (c : Char) : Bool := c.isAlphanum || c = '_' || latin1WordChar c

/-- Embedding of Python `str.lower`, exact for code points up to U+00FF:
`À`–`Þ` (except `×`) shift down by 0x20, ASCII via `Char.toLower`, and
every other Latin-1 character (including `µ` and `ß`) is unchanged.
Above U+00FF the embedding is the identity; no theorem below applies it
there. -/
def pyLower (c : Char) : Char :=
  if 0xC0 ≤ c.toNat ∧ c.toNat ≤ 0xDE ∧ c.toNat ≠ 0xD7 then Char.ofNat (c.toNat + 0x20)
  else Char.toLower c

/-- Embedding of `re.sub(r'[^\w\-]', '_', name.lower())`: lowercase, then replace every
character matching neither `\w` nor `-` by an underscore. -/
def sanitizeName (name : Chars) : Chars :=
  (name.map pyLower).map fun c => if pyWordChar c || c = '-' then c else '_'

/-- Basename produced by `generate_team_issues_md`. -/
def teamIssuesFilename (teamName : Chars) : Chars :=
  lit "issues-" ++ sanitizeName teamName ++ lit ".md"

/-- Basename produced by `generate_project_issues_md`. -/
def projectIssuesFilename (projectName : Chars) : Chars :=
  lit "issues-" ++ sanitizeName projectName ++ lit ".md"

/-- Modelled from the spec's words for comparison with `sanitizeName`:
"sanitization = lowercase, then every character outside `[A-Za-z0-9_-]`
replaced with `_`" (lowercase being Python `str.lower`, shared with the
code model; the charset is the spec's literal ASCII class). -/
def specSanitize (name : Chars) : Chars :=
  (name.map pyLower).map fun c =>
    if c.isUpper || c.isLower || c.isDigit || c = '_' || c = '-' then c else '_'

/- ### Parser (`parse_markdown_file`)

The regex `- \[([ x])\].*?<!-- id:(\S+) -->` applied with `re.finditer`.
`.` does not cross newlines, `.*?` is non-greedy, `(\S+)` is a maximal
run of non-whitespace (immediately followed by the literal close `' -->'`,
any shorter run would put a non-space where the space of `' -->'` is
required, so no backtracking inside the run can succeed). -/

/-- The literal opening of the id comment, `<!-- id:`. -/
def idMarker : Chars := lit "<!-- id:"

/-- The literal close of the id comment, `' -->'`. -/
def closeMarker : Chars := lit " -->"

/-- Attempt the tail `<!-- id:(\S+) -->` of the regex at the current
position: the marker literal, a maximal nonempty run of non-whitespace,
then the close literal. Returns the captured id and the remaining text. -/
def tryComment (s : Chars) : Option (Chars × Chars) :=
  if leadsWith idMarker s then
    if !((s.drop 8).takeWhile fun c => !pyWhitespace c).isEmpty &&
        leadsWith closeMarker ((s.drop 8).dropWhile fun c => !pyWhitespace c) then
      some ((s.drop 8).takeWhile fun c => !pyWhitespace c,
        ((s.drop 8).dropWhile fun c => !pyWhitespace c).drop 4)
    else
      none
  else
    none

/-- The non-greedy `.*?<!-- id:(\S+) -->` search: try the comment at each
successive position, never stepping over a newline (`.` excludes `\n`). -/
def findCommentInLine : Chars → Option (Chars × Chars)
  | [] => none
  | c :: rest =>
    match tryComment (c :: rest) with
    | some r => some r
    | none => if c = '\n' then none else findCommentInLine rest

/-- Attempt the whole regex at the current position: the checkbox
alternative `- \[([ x])\]` (five characters) followed by the comment
search; the capture of group 1 is whether the `x` alternative matched. -/
def tryMatch (s : Chars) : Option ((Bool × Chars) × Chars) :=
  if leadsWith (lit "- [x]") s || leadsWith (lit "- [ ]") s then
    match findCommentInLine (s.drop 5) with
    | some (tok, after) => some ((leadsWith (lit "- [x]") s, tok), after)
    | none => none
  else
    none

/-- Embedding of `re.finditer`: repeatedly find the leftmost match and continue after
its end, emitting `(id, completed)` per match in document order. The
fuel argument (instantiated with the text length) bounds the recursion;
each step either consumes one character or a whole match. -/
def scanAux : Nat → Chars → List (Chars × Bool)
  | 0, _ => []
  | _ + 1, [] => []
  | fuel + 1, c :: rest =>
    match tryMatch (c :: rest) with
    | some ((checked, tok), after) => (tok, checked) :: scanAux fuel after
    | none => scanAux fuel rest

/-- The loop over `re.finditer` matches in `parse_markdown_file`, applied
to file contents already in memory. -/
def parseMarkdownContent (content : Chars) : List (Chars × Bool) :=
  scanAux content.length content

/-- What `parse_markdown_file` can observe of the file at its path:
`os.path.exists` false (vanished), `open`/`read` raising (unreadable
though present), or readable contents. -/
inductive FileState where
  | absent
  | unreadable
  | content (text : Chars)
deriving DecidableEq

/-- Embedding of `parse_markdown_file`: a vanished file yields `[]`; a present but
unreadable file raises out of the function (`open` is outside any
`try`); otherwise the finditer loop over the contents. `Except` models
a propagating Python exception. -/
def parseMarkdownFile : FileState → Except Chars (List (Chars × Bool))
  | .absent => .ok []
  | .unreadable => .error (lit "read failed")
  | .content text => .ok (parseMarkdownContent text)

/- ### Reconciler (`sync_markdown_to_linear`)

The remote tracker is a capability interface; each call either returns a
value or raises (`Except.error` models a Python exception: a non-2xx
response or a GraphQL error payload in `linear_client.py`). The remote
is modelled as a fixed response map — the reconciler in the source reads
remote truth per issue and the claims concern one sync cycle. -/

/-- The capability interface consumed by `sync_markdown_to_linear`. -/
structure LinearClient where
  getIssue : Chars → Except Chars Issue
  getWorkflowStates : Chars → Except Chars (List WorkflowState)
  updateIssueState : Chars → Chars → Except Chars Unit

/-- Embedding of `issue.get('state', {}).get('type', '')` as computed at line 261
(note the `''` default here, unlike the renderer's `'unstarted'`). -/
def observedType (i : Issue) : Chars := ((i.state.getD {}).type).getD []

/-- Embedding of `current_type in ['completed', 'canceled']`. -/
def isCompletedType (t : Chars) : Bool := decide (t = lit "completed" ∨ t = lit "canceled")

/-- Outcome of one iteration of the reconciliation loop: whether
`updated_count` was incremented, and the `update_issue_state` calls
issued (the instrumentation lets theorems speak about transitions that
were attempted, not only counted). -/
structure StepResult where
  counted : Bool
  transitions : List (Chars × Chars)
deriving DecidableEq, Repr

/-- One iteration of the `for update in updates` loop of
`sync_markdown_to_linear`, for the parsed pair `(issue_id, completed)`.
Any raising remote call lands in the `except` clause: the iteration
contributes no count and the loop continues, which here is the
`counted := false` outcome. `if team_id:` is Python truthiness: both a
missing team id and an empty one skip the issue. -/
def syncStep (client : LinearClient) (u : Chars × Bool) : StepResult :=
  match client.getIssue u.1 with
  | .error _ => ⟨false, []⟩
  | .ok issue =>
    let isCompleted := isCompletedType (observedType issue)
    if u.2 && !isCompleted then
      match (issue.team.getD {}).id with
      | none => ⟨false, []⟩
      | some teamId =>
        if teamId.isEmpty then ⟨false, []⟩
        else
          match client.getWorkflowStates teamId with
          | .error _ => ⟨false, []⟩
          | .ok states =>
            match states.find? (fun s => decide (s.type = lit "completed")) with
            | none => ⟨false, []⟩
            | some target =>
              match client.updateIssueState u.1 target.id with
              | .ok _ => ⟨true, [(u.1, target.id)]⟩
              | .error _ => ⟨false, [(u.1, target.id)]⟩
    else if !u.2 && isCompleted then
      match (issue.team.getD {}).id with
      | none => ⟨false, []⟩
      | some teamId =>
        if teamId.isEmpty then ⟨false, []⟩
        else
          match client.getWorkflowStates teamId with
          | .error _ => ⟨false, []⟩
          | .ok states =>
            match states.find? (fun s => decide (s.type = lit "unstarted")) with
            | none => ⟨false, []⟩
            | some target =>
              match client.updateIssueState u.1 target.id with
              | .ok _ => ⟨true, [(u.1, target.id)]⟩
              | .error _ => ⟨false, [(u.1, target.id)]⟩
    else ⟨false, []⟩

/-- Embedding of `sync_markdown_to_linear`: raises when no client is attached, lets a
`parse_markdown_file` exception propagate (its `open` is outside the
loop's `try`), and otherwise folds the loop, accumulating
`updated_count`. -/
def syncMarkdownToLinear (client : Option LinearClient) (file : FileState) :
    Except Chars Nat :=
  match client with
  | none => .error (lit "Linear client not configured")
  | some c =>
    match parseMarkdownFile file with
    | .error e => .error e
    | .ok updates =>
      .ok (updates.foldl (fun acc u => acc + if (syncStep c u).counted then 1 else 0) 0)

/-! ### Basic facts about the literal matcher -/

theorem leadsWith_length {p s : Chars} (h : leadsWith p s = true) : p.length ≤ s.length := by
  induction p generalizing s with
  | nil => simp
  | cons a ps ih =>
    cases s with
    | nil => simp [leadsWith] at h
    | cons b ss =>
      simp only [leadsWith, Bool.and_eq_true] at h
      simpa [Nat.succ_le_succ_iff] using ih h.2

theorem leadsWith_self_append (p s : Chars) : leadsWith p (p ++ s) = true := by
  induction p with
  | nil => rfl
  | cons a ps ih => simp [leadsWith, ih]

theorem eq_append_of_leadsWith {p s : Chars} (h : leadsWith p s = true) :
    s = p ++ s.drop p.length := by
  induction p generalizing s with
  | nil => simp
  | cons a ps ih =>
    cases s with
    | nil => simp [leadsWith] at h
    | cons b ss =>
      simp only [leadsWith, Bool.and_eq_true, decide_eq_true_eq] at h
      simpa [h.1] using ih h.2

/-! ### Fuel independence and suffix facts for the scanner -/

theorem tryComment_after_suffix {s tok after : Chars} (h : tryComment s = some (tok, after)) :
    after <:+ s := by
  unfold tryComment at h
  split at h
  · split at h
    · simp only [Option.some.injEq, Prod.mk.injEq] at h
      have h1 : after <:+ ((s.drop 8).dropWhile fun c => !pyWhitespace c) :=
        h.2 ▸ List.drop_suffix 4 _
      exact h1.trans ((List.dropWhile_suffix _).trans (List.drop_suffix 8 s))
    · exact absurd h (by simp)
  · exact absurd h (by simp)

theorem findCommentInLine_after_suffix {s tok after : Chars}
    (h : findCommentInLine s = some (tok, after)) : after <:+ s := by
  induction s with
  | nil => simp [findCommentInLine] at h
  | cons c rest ih =>
    unfold findCommentInLine at h
    split at h
    · rename_i r heq
      cases h
      exact tryComment_after_suffix heq
    · split at h
      · simp at h
      · exact List.IsSuffix.trans (ih h) ⟨[c], rfl⟩

theorem tryMatch_after_suffix {s : Chars} {u : Bool × Chars} {after : Chars}
    (h : tryMatch s = some (u, after)) : after <:+ s := by
  unfold tryMatch at h
  split at h
  · split at h
    · rename_i tok after' heq
      cases h
      exact List.IsSuffix.trans (findCommentInLine_after_suffix heq) (List.drop_suffix 5 s)
    · simp at h
  · simp at h

theorem tryMatch_after_lt {s : Chars} {u : Bool × Chars} {after : Chars}
    (h : tryMatch s = some (u, after)) : after.length < s.length := by
  have hsfx := (tryMatch_after_suffix h).length_le
  unfold tryMatch at h
  split at h
  · rename_i hbox
    have h5 : 5 ≤ s.length := by
      rcases Bool.or_eq_true .. |>.mp hbox with h' | h' <;>
        simpa using leadsWith_length h'
    split at h
    · rename_i tok after' heq
      cases h
      have := (findCommentInLine_after_suffix heq).length_le
      simp only [List.length_drop] at this
      omega
    · simp at h
  · simp at h

theorem scanAux_nil (f : Nat) : scanAux f [] = [] := by cases f <;> rfl

theorem scanAux_fuel : ∀ (n : Nat) (s : Chars) (f g : Nat), s.length ≤ n →
    s.length ≤ f → s.length ≤ g → scanAux f s = scanAux g s := by
  intro n
  induction n with
  | zero =>
    intro s f g hn _ _
    have : s = [] := List.length_eq_zero.mp (Nat.le_zero.mp hn)
    subst this
    simp [scanAux_nil]
  | succ n ih =>
    intro s f g hn hf hg
    cases s with
    | nil => simp [scanAux_nil]
    | cons c rest =>
      cases f with
      | zero => simp at hf
      | succ f' =>
        cases g with
        | zero => simp at hg
        | succ g' =>
          simp only [List.length_cons, Nat.succ_le_succ_iff] at hn hf hg
          cases h : tryMatch (c :: rest) with
          | none =>
            simp only [scanAux, h]
            exact ih rest f' g' hn hf hg
          | some v =>
            obtain ⟨⟨ch, tok⟩, after⟩ := v
            have hlt : after.length < rest.length + 1 := by
              simpa using tryMatch_after_lt h
            simp only [scanAux, h]
            exact congrArg _ (ih after f' g' (by omega) (by omega) (by omega))

theorem parseMarkdownContent_eq_scanAux (s : Chars) (f : Nat) (hf : s.length ≤ f) :
    parseMarkdownContent s = scanAux f s :=
  scanAux_fuel s.length s s.length f (Nat.le_refl _) (Nat.le_refl _) hf

theorem parse_nil : parseMarkdownContent [] = [] := rfl

theorem parse_cons_none {c : Char} {rest : Chars} (h : tryMatch (c :: rest) = none) :
    parseMarkdownContent (c :: rest) = parseMarkdownContent rest := by
  unfold parseMarkdownContent
  simp [scanAux, h]

theorem parse_cons_some {c : Char} {rest tok after : Chars} {ch : Bool}
    (h : tryMatch (c :: rest) = some ((ch, tok), after)) :
    parseMarkdownContent (c :: rest) = (tok, ch) :: parseMarkdownContent after := by
  have hlt : after.length < rest.length + 1 := by simpa using tryMatch_after_lt h
  unfold parseMarkdownContent
  simp only [List.length_cons, scanAux, h]
  exact congrArg _
    (scanAux_fuel rest.length after rest.length after.length (by omega) (by omega) (by omega))

/-! ### Newline padding: a regex match never crosses a line break
(`.` excludes `\n`, and every literal piece and the `\S+` token are
newline-free), so the scan of `line ++ '\n' :: rest` factors. -/

theorem leadsWith_pad {p t : Chars} (rest : Chars) (hp : '\n' ∉ p) (ht : '\n' ∉ t) :
    leadsWith p (t ++ '\n' :: rest) = leadsWith p t := by
  induction p generalizing t with
  | nil => rfl
  | cons a ps ih =>
    cases t with
    | nil =>
      have ha : ¬(a = '\n') := fun hh => hp (hh ▸ List.mem_cons_self a ps)
      simp [leadsWith, ha]
    | cons b ts =>
      have hp' : '\n' ∉ ps := fun hh => hp (List.mem_cons_of_mem _ hh)
      have ht' : '\n' ∉ ts := fun hh => ht (List.mem_cons_of_mem _ hh)
      simp [leadsWith, ih hp' ht']

theorem takeWhile_pad (t rest : Chars) :
    ((t ++ '\n' :: rest).takeWhile fun c => !pyWhitespace c) =
      t.takeWhile fun c => !pyWhitespace c := by
  induction t with
  | nil => simp [List.takeWhile_cons, show pyWhitespace '\n' = true from rfl]
  | cons c ts ih => cases h : pyWhitespace c <;> simp [List.takeWhile_cons, h, ih]

theorem dropWhile_pad (t rest : Chars) :
    ((t ++ '\n' :: rest).dropWhile fun c => !pyWhitespace c) =
      (t.dropWhile fun c => !pyWhitespace c) ++ '\n' :: rest := by
  induction t with
  | nil => simp [List.dropWhile_cons, show pyWhitespace '\n' = true from rfl]
  | cons c ts ih => cases h : pyWhitespace c <;> simp [List.dropWhile_cons, h, ih]

theorem tryComment_pad {t : Chars} (rest : Chars) (ht : '\n' ∉ t) :
    tryComment (t ++ '\n' :: rest) = (tryComment t).map fun r => (r.1, r.2 ++ '\n' :: rest) := by
  unfold tryComment
  rw [leadsWith_pad rest (by decide) ht]
  cases hlead : leadsWith idMarker t with
  | false => simp [hlead]
  | true =>
    have h8 : 8 ≤ t.length := by simpa [idMarker, lit] using leadsWith_length hlead
    rw [List.drop_append_of_le_length h8, takeWhile_pad, dropWhile_pad]
    have hrest' : '\n' ∉ (t.drop 8).dropWhile fun c => !pyWhitespace c := fun hm =>
      ht (List.mem_of_mem_drop ((List.dropWhile_suffix _).subset hm))
    rw [leadsWith_pad rest (by decide) hrest']
    cases hc : (!((t.drop 8).takeWhile fun c => !pyWhitespace c).isEmpty &&
        leadsWith closeMarker ((t.drop 8).dropWhile fun c => !pyWhitespace c)) with
    | false => simp [hlead, hc]
    | true =>
      have h4 : 4 ≤ ((t.drop 8).dropWhile fun c => !pyWhitespace c).length := by
        have := leadsWith_length (Bool.and_elim_right hc)
        simpa [closeMarker, lit] using this
      simp [hlead, hc, List.drop_append_of_le_length h4]

theorem findCommentInLine_pad {t : Chars} (rest : Chars) (ht : '\n' ∉ t) :
    findCommentInLine (t ++ '\n' :: rest) =
      (findCommentInLine t).map fun r => (r.1, r.2 ++ '\n' :: rest) := by
  induction t with
  | nil =>
    have h1 : tryComment ('\n' :: rest) = none := by
      unfold tryComment
      simp [idMarker, lit, leadsWith]
    simp [findCommentInLine, h1]
  | cons c ts ih =>
    have ht' : '\n' ∉ ts := fun hm => ht (List.mem_cons_of_mem _ hm)
    have hc : ¬(c = '\n') := fun hh => ht (hh ▸ List.mem_cons_self _ _)
    have hpad := tryComment_pad (t := c :: ts) rest ht
    simp only [List.cons_append] at hpad ⊢
    unfold findCommentInLine
    rw [hpad]
    cases htc : tryComment (c :: ts) with
    | none => simp [hc, ih ht']
    | some r => simp

theorem tryMatch_pad {t : Chars} (rest : Chars) (ht : '\n' ∉ t) :
    tryMatch (t ++ '\n' :: rest) = (tryMatch t).map fun r => (r.1, r.2 ++ '\n' :: rest) := by
  unfold tryMatch
  rw [leadsWith_pad rest (by decide) ht, leadsWith_pad rest (by decide) ht]
  cases hbox : (leadsWith (lit "- [x]") t || leadsWith (lit "- [ ]") t) with
  | false => simp [hbox]
  | true =>
    have h5 : 5 ≤ t.length := by
      rcases Bool.or_eq_true .. |>.mp hbox with h' | h' <;> simpa [lit] using leadsWith_length h'
    rw [List.drop_append_of_le_length h5]
    have hmem : '\n' ∉ t.drop 5 := fun hm => ht (List.mem_of_mem_drop hm)
    rw [findCommentInLine_pad rest hmem]
    cases hfc : findCommentInLine (t.drop 5) with
    | none => simp [hbox, hfc]
    | some r =>
      obtain ⟨tok, after⟩ := r
      simp [hbox, hfc]

theorem parse_split : ∀ (n : Nat) (t rest : Chars), t.length ≤ n → '\n' ∉ t →
    parseMarkdownContent (t ++ '\n' :: rest) =
      parseMarkdownContent t ++ parseMarkdownContent rest := by
  intro n
  induction n with
  | zero =>
    intro t rest hn _
    have : t = [] := List.length_eq_zero.mp (Nat.le_zero.mp hn)
    subst this
    simp only [List.nil_append, parse_nil]
    exact parse_cons_none rfl
  | succ n ih =>
    intro t rest hn ht
    cases t with
    | nil =>
      simp only [List.nil_append, parse_nil]
      exact parse_cons_none rfl
    | cons c ts =>
      simp only [List.length_cons, Nat.succ_le_succ_iff] at hn
      have ht' : '\n' ∉ ts := fun hm => ht (List.mem_cons_of_mem _ hm)
      have hpad := tryMatch_pad (t := c :: ts) rest ht
      cases htm : tryMatch (c :: ts) with
      | none =>
        rw [htm] at hpad
        simp only [Option.map_none'] at hpad
        rw [List.cons_append] at hpad ⊢
        rw [parse_cons_none hpad, ← List.cons_append,
          show (c :: ts) ++ '\n' :: rest = c :: (ts ++ '\n' :: rest) from rfl] at *
        rw [parse_cons_none htm]
        exact ih ts rest hn ht'
      | some r =>
        obtain ⟨⟨ch, tok⟩, after⟩ := r
        rw [htm] at hpad
        simp only [Option.map_some'] at hpad
        have hafter_len : after.length ≤ n := by
          have := tryMatch_after_lt htm
          simp only [List.length_cons] at this
          omega
        have hafter_mem : '\n' ∉ after := fun hm =>
          ht ((tryMatch_after_suffix htm).subset hm)
        rw [List.cons_append]
        rw [parse_cons_some (by rw [← List.cons_append]; exact hpad)]
        rw [parse_cons_some htm, ih after rest hafter_len hafter_mem]
        simp

theorem parse_joinLines : ∀ (ls : List Chars), (∀ l ∈ ls, '\n' ∉ l) →
    parseMarkdownContent (joinLines ls) = ls.flatMap parseMarkdownContent := by
  intro ls
  induction ls with
  | nil => intro _; simp [joinLines, parse_nil]
  | cons l ls ih =>
    intro h
    cases ls with
    | nil => simp [joinLines]
    | cons l₂ ls' =>
      have hl : '\n' ∉ l := h l (List.mem_cons_self _ _)
      have hrest : ∀ x ∈ l₂ :: ls', '\n' ∉ x := fun x hx => h x (List.mem_cons_of_mem _ hx)
      show parseMarkdownContent (l ++ '\n' :: joinLines (l₂ :: ls')) = _
      rw [parse_split l.length l _ (Nat.le_refl _) hl, ih hrest]
      simp

/-! ### Texts that cannot contain a match -/

/-- Whether the text contains an occurrence of the id-comment opener
`<!-- id:` (the necessary kernel of every regex match). -/
def containsMarker : Chars → Bool
  | [] => false
  | c :: r => leadsWith idMarker (c :: r) || containsMarker r

theorem containsMarker_tail {c : Char} {r : Chars} (h : containsMarker (c :: r) = false) :
    containsMarker r = false := by
  unfold containsMarker at h
  exact (Bool.or_eq_false_iff.mp h).2

theorem containsMarker_drop : ∀ (n : Nat) (s : Chars), containsMarker s = false →
    containsMarker (s.drop n) = false := by
  intro n
  induction n with
  | zero => intro s h; simpa using h
  | succ n ih =>
    intro s h
    cases s with
    | nil => exact h
    | cons c r => exact ih r (containsMarker_tail h)

theorem tryComment_none_of_no_marker {s : Chars} (h : containsMarker s = false) :
    tryComment s = none := by
  cases s with
  | nil => rfl
  | cons c r =>
    unfold containsMarker at h
    unfold tryComment
    simp [(Bool.or_eq_false_iff.mp h).1]

theorem findCommentInLine_none_of_no_marker {s : Chars} (h : containsMarker s = false) :
    findCommentInLine s = none := by
  induction s with
  | nil => rfl
  | cons c r ih =>
    unfold findCommentInLine
    rw [tryComment_none_of_no_marker h]
    simp only
    split
    · rfl
    · exact ih (containsMarker_tail h)

theorem tryMatch_none_of_no_marker {s : Chars} (h : containsMarker s = false) :
    tryMatch s = none := by
  unfold tryMatch
  rw [findCommentInLine_none_of_no_marker (containsMarker_drop 5 s h)]
  split <;> rfl

theorem parse_nil_of_no_marker {s : Chars} (h : containsMarker s = false) :
    parseMarkdownContent s = [] := by
  induction s with
  | nil => rfl
  | cons c r ih =>
    rw [parse_cons_none (tryMatch_none_of_no_marker h)]
    exact ih (containsMarker_tail h)

theorem containsMarker_of_no_lt {s : Chars} (h : ∀ c ∈ s, c ≠ '<') :
    containsMarker s = false := by
  induction s with
  | nil => rfl
  | cons c r ih =>
    have hc : ¬('<' = c) := fun hh => h c (List.mem_cons_self _ _) hh.symm
    unfold containsMarker
    rw [show idMarker = '<' :: lit "!-- id:" from rfl]
    simp only [leadsWith, hc, decide_False, Bool.false_and, Bool.false_or]
    exact ih fun x hx => h x (List.mem_cons_of_mem _ hx)

/-- Safe display text for the round-trip: contains neither `<` (so it can
spawn no id comment) nor a newline (so the rendered line stays one line). -/
def plainText (s : Chars) : Bool := s.all fun c => decide (c ≠ '<' ∧ c ≠ '\n')

theorem plainText_chars {s : Chars} (h : plainText s = true) :
    ∀ c ∈ s, c ≠ '<' ∧ c ≠ '\n' := by
  simpa [plainText] using h

theorem plainText_no_newline {s : Chars} (h : plainText s = true) : '\n' ∉ s :=
  fun hm => (plainText_chars h _ hm).2 rfl

theorem parse_nil_of_plain {s : Chars} (h : plainText s = true) :
    parseMarkdownContent s = [] :=
  parse_nil_of_no_marker (containsMarker_of_no_lt fun c hc => (plainText_chars h c hc).1)

/-- A well-formed issue id for the round-trip: nonempty and free of
(Python) whitespace, exactly what the capture `(\S+)` can reproduce. -/
def goodId (s : Chars) : Bool := !s.isEmpty && s.all fun c => !pyWhitespace c

/-- Hypothesis bundle for the round-trip: the three display fields (after
the renderer's defaults) are plain text and the issue id is well formed. -/
def renderSafe (i : Issue) : Bool :=
  plainText (i.identifier.getD (lit "N/A")) && plainText (i.title.getD (lit "No title")) &&
    plainText (((i.state.getD {}).name).getD (lit "Unknown")) && goodId (i.id.getD [])

/-! ### Parsing a single rendered line -/

theorem findCommentInLine_marker (idv tail : Chars) (hne : idv ≠ [])
    (hws : ∀ c ∈ idv, pyWhitespace c = false) :
    findCommentInLine (idMarker ++ (idv ++ (closeMarker ++ tail))) = some (idv, tail) := by
  have htc : tryComment (idMarker ++ (idv ++ (closeMarker ++ tail))) = some (idv, tail) := by
    unfold tryComment
    rw [List.drop_left' (show idMarker.length = 8 from rfl)]
    rw [List.takeWhile_append_of_pos (by intro a ha; simp [hws a ha]),
      List.dropWhile_append_of_pos (by intro a ha; simp [hws a ha])]
    rw [show closeMarker ++ tail = ' ' :: (lit "-->" ++ tail) from rfl]
    rw [List.takeWhile_cons, List.dropWhile_cons]
    simp only [show (!pyWhitespace ' ') = false from rfl, Bool.false_eq_true, if_false,
      List.append_nil]
    rw [show ' ' :: (lit "-->" ++ tail) = closeMarker ++ tail from rfl]
    simp [leadsWith_self_append, hne, List.drop_left' (show closeMarker.length = 4 from rfl)]
  rw [show idMarker ++ (idv ++ (closeMarker ++ tail)) =
    '<' :: (lit "!-- id:" ++ (idv ++ (closeMarker ++ tail))) from rfl] at htc ⊢
  unfold findCommentInLine
  rw [htc]

theorem findCommentInLine_skip (d : Chars) (r : Chars)
    (hd : ∀ c ∈ d, c ≠ '<' ∧ c ≠ '\n') :
    findCommentInLine (d ++ r) = findCommentInLine r := by
  induction d with
  | nil => simp
  | cons c ds ih =>
    have hc := hd c (List.mem_cons_self _ _)
    have hds : ∀ x ∈ ds, x ≠ '<' ∧ x ≠ '\n' := fun x hx => hd x (List.mem_cons_of_mem _ hx)
    have hlt : ¬('<' = c) := fun hh => hc.1 hh.symm
    have htc : tryComment (c :: (ds ++ r)) = none := by
      unfold tryComment
      rw [show idMarker = '<' :: lit "!-- id:" from rfl]
      simp [leadsWith, hlt]
    simp only [List.cons_append, findCommentInLine]
    simp [htc, hc.2, ih hds]

theorem plainText_append (a b : Chars) : plainText (a ++ b) = (plainText a && plainText b) := by
  simp [plainText]

theorem parse_boxline_x (D idv : Chars) (hD : plainText D = true) (hne : idv ≠ [])
    (hws : ∀ c ∈ idv, pyWhitespace c = false) :
    parseMarkdownContent (lit "- [x]" ++ (D ++ (idMarker ++ (idv ++ closeMarker)))) =
      [(idv, true)] := by
  have hfc : findCommentInLine
      ((lit "- [x]" ++ (D ++ (idMarker ++ (idv ++ closeMarker)))).drop 5) = some (idv, []) := by
    rw [List.drop_left' (show (lit "- [x]").length = 5 from rfl)]
    rw [findCommentInLine_skip D _ (plainText_chars hD)]
    simpa using findCommentInLine_marker idv [] hne hws
  have htm : tryMatch (lit "- [x]" ++ (D ++ (idMarker ++ (idv ++ closeMarker)))) =
      some ((true, idv), []) := by
    unfold tryMatch
    simp [leadsWith_self_append, hfc]
  rw [show lit "- [x]" ++ (D ++ (idMarker ++ (idv ++ closeMarker))) =
    '-' :: (lit " [x]" ++ (D ++ (idMarker ++ (idv ++ closeMarker)))) from rfl] at htm ⊢
  rw [parse_cons_some htm, parse_nil]

theorem parse_boxline_blank (D idv : Chars) (hD : plainText D = true) (hne : idv ≠ [])
    (hws : ∀ c ∈ idv, pyWhitespace c = false) :
    parseMarkdownContent (lit "- [ ]" ++ (D ++ (idMarker ++ (idv ++ closeMarker)))) =
      [(idv, false)] := by
  have hfc : findCommentInLine
      ((lit "- [ ]" ++ (D ++ (idMarker ++ (idv ++ closeMarker)))).drop 5) = some (idv, []) := by
    rw [List.drop_left' (show (lit "- [ ]").length = 5 from rfl)]
    rw [findCommentInLine_skip D _ (plainText_chars hD)]
    simpa using findCommentInLine_marker idv [] hne hws
  have hx : leadsWith (lit "- [x]") (lit "- [ ]" ++ (D ++ (idMarker ++ (idv ++ closeMarker)))) =
      false := rfl
  have htm : tryMatch (lit "- [ ]" ++ (D ++ (idMarker ++ (idv ++ closeMarker)))) =
      some ((false, idv), []) := by
    unfold tryMatch
    simp [leadsWith_self_append, hfc, hx]
  rw [show lit "- [ ]" ++ (D ++ (idMarker ++ (idv ++ closeMarker))) =
    '-' :: (lit " [ ]" ++ (D ++ (idMarker ++ (idv ++ closeMarker)))) from rfl] at htm ⊢
  rw [parse_cons_some htm, parse_nil]

theorem parse_issueLine (i : Issue) (hs : renderSafe i = true) :
    parseMarkdownContent (issueLine i) =
      [(i.id.getD [], isCompletedType (stateTypeOf i))] := by
  simp only [renderSafe, Bool.and_eq_true] at hs
  obtain ⟨⟨⟨hident, httl⟩, hnm⟩, hid⟩ := hs
  simp only [goodId, Bool.and_eq_true] at hid
  have hne : i.id.getD [] ≠ [] := by
    intro hh
    simp [hh] at hid
  have hws : ∀ c ∈ i.id.getD [], pyWhitespace c = false := by
    intro c hc
    have := (List.all_eq_true.mp hid.2) c hc
    simpa using this
  have hplainD : plainText (lit " **" ++ (i.identifier.getD (lit "N/A") ++ (lit "**: " ++
      (i.title.getD (lit "No title") ++ (lit " *[" ++
      (((i.state.getD {}).name).getD (lit "Unknown") ++ lit "]* ")))))) = true := by
    have c1 : plainText (lit " **") = true := by decide
    have c2 : plainText (lit "**: ") = true := by decide
    have c3 : plainText (lit " *[") = true := by decide
    have c4 : plainText (lit "]* ") = true := by decide
    simp [plainText_append, hident, httl, hnm, c1, c2, c3, c4]
  have hline : issueLine i = getCheckbox i ++
      ((lit " **" ++ (i.identifier.getD (lit "N/A") ++ (lit "**: " ++
        (i.title.getD (lit "No title") ++ (lit " *[" ++
        (((i.state.getD {}).name).getD (lit "Unknown") ++ lit "]* ")))))) ++
       (idMarker ++ (i.id.getD [] ++ closeMarker))) := by
    unfold issueLine
    rw [show lit "]* <!-- id:" = lit "]* " ++ idMarker by decide]
    rw [show lit " -->" = closeMarker from rfl]
    simp [List.append_assoc]
  rw [hline]
  unfold getCheckbox
  split
  case isTrue h =>
    rw [parse_boxline_x _ _ hplainD hne hws]
    simp [isCompletedType, h]
  case isFalse h =>
    rw [parse_boxline_blank _ _ hplainD hne hws]
    simp [isCompletedType, h]

/-! ### Grouping is a permutation of the input -/

theorem flatMap_congr_mem {α β : Type} {l : List α} {f g : α → List β}
    (h : ∀ a ∈ l, f a = g a) : l.flatMap f = l.flatMap g := by
  induction l with
  | nil => rfl
  | cons a t ih =>
    simp only [List.flatMap_cons]
    rw [h a (List.mem_cons_self _ _), ih fun x hx => h x (List.mem_cons_of_mem _ hx)]

theorem flatMap_pure {α β : Type} (l : List α) (g : α → β) :
    (l.flatMap fun a => [g a]) = l.map g := by
  induction l with
  | nil => rfl
  | cons a t ih => simp [ih]

theorem flatMap_filter_nonempty {κ α : Type} (l : List (κ × List α)) :
    ((l.filter fun p => !p.2.isEmpty).flatMap fun p => p.2) = l.flatMap fun p => p.2 := by
  induction l with
  | nil => rfl
  | cons p t ih =>
    cases hp : p.2.isEmpty with
    | true =>
      have : p.2 = [] := List.isEmpty_eq_true.mp hp
      simp [List.filter_cons, hp, ih, this]
    | false => simp [List.filter_cons, hp, ih]

theorem flatMap_filter_cons_of_not_mem {α κ : Type} [DecidableEq κ] (f : α → κ) (a : α)
    (l : List α) : ∀ (ks : List κ), f a ∉ ks →
    (ks.flatMap fun k => (a :: l).filter fun x => decide (f x = k)) =
      ks.flatMap fun k => l.filter fun x => decide (f x = k) := by
  intro ks
  induction ks with
  | nil => simp
  | cons k kt ih =>
    intro hk
    have hne : ¬(decide (f a = k) = true) := by
      simp only [decide_eq_true_eq]
      exact fun hh => hk (hh ▸ List.mem_cons_self _ _)
    rw [List.flatMap_cons, List.flatMap_cons, ih fun hh => hk (List.mem_cons_of_mem _ hh)]
    congr 1
    simp [List.filter_cons, hne]

theorem perm_partition_cons {α κ : Type} [DecidableEq κ] (f : α → κ) (a : α) (l : List α) :
    ∀ (ks : List κ), ks.Nodup → f a ∈ ks →
    List.Perm (ks.flatMap fun k => (a :: l).filter fun x => decide (f x = k))
      (a :: ks.flatMap fun k => l.filter fun x => decide (f x = k)) := by
  intro ks
  induction ks with
  | nil => intro _ hmem; simp at hmem
  | cons k kt ih =>
    intro hnd hmem
    by_cases hak : f a = k
    · have hnotin : f a ∉ kt := by
        have := (List.nodup_cons.mp hnd).1
        exact fun hh => this (hak ▸ hh)
      have hfc : ((a :: l).filter fun x => decide (f x = k)) =
          a :: l.filter fun x => decide (f x = k) := by
        simp [List.filter_cons, hak]
      rw [List.flatMap_cons, List.flatMap_cons,
        flatMap_filter_cons_of_not_mem f a l kt hnotin, hfc]
      simp
    · have hmem' : f a ∈ kt := by
        rcases List.mem_cons.mp hmem with hh | hh
        · exact absurd hh hak
        · exact hh
      have hne : ¬(decide (f a = k) = true) := by simpa using hak
      have hfc : ((a :: l).filter fun x => decide (f x = k)) =
          l.filter fun x => decide (f x = k) := by
        simp [List.filter_cons, hne]
      rw [List.flatMap_cons, List.flatMap_cons, hfc]
      exact List.Perm.trans
        (List.Perm.append_left _ (ih (List.nodup_cons.mp hnd).2 hmem')) List.perm_middle

theorem perm_partition {α κ : Type} [DecidableEq κ] (f : α → κ) (ks : List κ)
    (hnd : ks.Nodup) : ∀ (l : List α), (∀ a ∈ l, f a ∈ ks) →
    List.Perm (ks.flatMap fun k => l.filter fun x => decide (f x = k)) l := by
  intro l
  induction l with
  | nil => intro _; simp
  | cons a t ih =>
    intro hmem
    have h1 := perm_partition_cons f a t ks hnd (hmem a (List.mem_cons_self _ _))
    have h2 := ih fun x hx => hmem x (List.mem_cons_of_mem _ hx)
    exact h1.trans (List.Perm.cons a h2)

theorem categoryOf_mem (i : Issue) : categoryOf i ∈ categories := by
  unfold categoryOf
  split
  · assumption
  · simp [categories]

theorem categories_nodup : categories.Nodup := by decide

theorem flatten_groups (issues : List Issue) :
    List.Perm ((groupIssuesByState issues).flatMap fun p => p.2) issues := by
  unfold groupIssuesByState
  rw [flatMap_filter_nonempty, List.flatMap_map]
  exact perm_partition categoryOf categories categories_nodup issues
    fun i _ => categoryOf_mem i

theorem mem_group {issues : List Issue} {p : Chars × List Issue}
    (h : p ∈ groupIssuesByState issues) :
    p.1 ∈ categories ∧ ∀ i ∈ p.2, i ∈ issues := by
  unfold groupIssuesByState at h
  have h' := List.mem_of_mem_filter h
  simp only [List.mem_map] at h'
  obtain ⟨k', hk', hkk⟩ := h'
  constructor
  · rw [← hkk]
    exact hk'
  · intro i hi
    rw [← hkk] at hi
    exact List.mem_of_mem_filter hi

/-! ### Assembling the round-trip -/

theorem heading_plain : ∀ k ∈ categories, plainText (lit "## " ++ pyTitle k) = true := by
  decide

theorem heading_no_newline : ∀ k ∈ categories, '\n' ∉ lit "## " ++ pyTitle k := by
  decide

theorem issueLine_no_newline (i : Issue) (hs : renderSafe i = true) : '\n' ∉ issueLine i := by
  simp only [renderSafe, Bool.and_eq_true] at hs
  obtain ⟨⟨⟨hident, httl⟩, hnm⟩, hid⟩ := hs
  simp only [goodId, Bool.and_eq_true] at hid
  have hgc : '\n' ∉ getCheckbox i := by
    unfold getCheckbox
    split <;> decide
  intro hmem
  simp only [issueLine, List.mem_append] at hmem
  rcases hmem with ((((((((h | h) | h) | h) | h) | h) | h) | h) | h) | h
  · exact hgc h
  · exact (by decide : '\n' ∉ lit " **") h
  · exact plainText_no_newline hident h
  · exact (by decide : '\n' ∉ lit "**: ") h
  · exact plainText_no_newline httl h
  · exact (by decide : '\n' ∉ lit " *[") h
  · exact plainText_no_newline hnm h
  · exact (by decide : '\n' ∉ lit "]* <!-- id:") h
  · exact absurd ((List.all_eq_true.mp hid.2) '\n' h) (by decide)
  · exact (by decide : '\n' ∉ lit " -->") h

theorem parse_section_block (k : Chars) (v : List Issue) (hk : k ∈ categories)
    (hv : ∀ i ∈ v, renderSafe i = true) :
    (((lit "## " ++ pyTitle k) :: [] :: (v.map issueLine ++ [[]])).flatMap
        parseMarkdownContent) =
      v.map fun i => (i.id.getD [], isCompletedType (stateTypeOf i)) := by
  have hhd : parseMarkdownContent (lit "## " ++ pyTitle k) = [] :=
    parse_nil_of_plain (heading_plain k hk)
  simp only [List.flatMap_cons, List.flatMap_append, hhd, parse_nil, List.nil_append]
  rw [List.flatMap_map, flatMap_congr_mem fun i hi => parse_issueLine i (hv i hi),
    flatMap_pure]
  simp [parse_nil]

theorem contentLines_no_newline (ts title desc : Chars) (issues : List Issue)
    (hts : plainText ts = true) (htitle : plainText title = true)
    (hdesc : plainText desc = true) (hsafe : ∀ i ∈ issues, renderSafe i = true) :
    ∀ l ∈ contentLines ts title issues desc, '\n' ∉ l := by
  intro l hl
  have hchunk1 : '\n' ∉ lit "# " := by decide
  have hchunk2 : '\n' ∉ lit "*Generated: " := by decide
  unfold contentLines at hl
  rcases List.mem_append.mp hl with h1 | h3
  rotate_left
  · obtain ⟨p, hp, hlp⟩ := List.mem_flatMap.mp h3
    obtain ⟨hk, hsub⟩ := mem_group hp
    rcases List.mem_cons.mp hlp with h | h
    · exact h ▸ heading_no_newline p.1 hk
    rcases List.mem_cons.mp h with h | h
    · simp [h]
    rcases List.mem_append.mp h with h | h
    · obtain ⟨i, hi, hli⟩ := List.mem_map.mp h
      exact hli ▸ issueLine_no_newline i (hsafe i (hsub i hi))
    · simp only [List.mem_singleton] at h
      simp [h]
  rcases List.mem_append.mp h1 with h2 | hMid
  rotate_left
  · simp only [List.mem_cons, List.not_mem_nil, or_false] at hMid
    rcases hMid with h | h
    · subst h
      decide
    · simp [h]
  rcases List.mem_append.mp h2 with hA | hIte
  rotate_left
  · by_cases hde : desc.isEmpty = true
    · rw [if_pos hde] at hIte
      simp at hIte
    · rw [if_neg hde] at hIte
      simp only [List.mem_cons, List.not_mem_nil, or_false] at hIte
      rcases hIte with h | h
      · exact h ▸ plainText_no_newline hdesc
      · simp [h]
  simp only [List.mem_cons, List.not_mem_nil, or_false] at hA
  rcases hA with h | h | h | h
  · subst h
    intro hm
    rcases List.mem_append.mp hm with hm' | hm'
    · exact hchunk1 hm'
    · exact plainText_no_newline htitle hm'
  · simp [h]
  · subst h
    intro hm
    rcases List.mem_append.mp hm with hm' | hm'
    · rcases List.mem_append.mp hm' with hm'' | hm''
      · exact hchunk2 hm''
      · exact plainText_no_newline hts hm''
    · revert hm'
      decide
  · simp [h]

theorem roundtrip_perm (ts title desc : Chars) (issues : List Issue)
    (hts : plainText ts = true) (htitle : plainText title = true)
    (hdesc : plainText desc = true) (hsafe : ∀ i ∈ issues, renderSafe i = true) :
    List.Perm (parseMarkdownContent (generateMarkdownContent ts title issues desc))
      (issues.map fun i => (i.id.getD [], isCompletedType (stateTypeOf i))) := by
  have h1 : parseMarkdownContent (lit "# " ++ title) = [] := by
    apply parse_nil_of_plain
    rw [plainText_append]
    simp [htitle, show plainText (lit "# ") = true from by decide]
  have h2 : parseMarkdownContent (lit "*Generated: " ++ ts ++ lit "*") = [] := by
    apply parse_nil_of_plain
    rw [plainText_append, plainText_append]
    simp [hts, show plainText (lit "*Generated: ") = true from by decide,
      show plainText (lit "*") = true from by decide]
  have h4 : (if desc.isEmpty then ([] : List Chars) else [desc, []]).flatMap
      parseMarkdownContent = [] := by
    split
    · rfl
    · simp [List.flatMap_cons, parse_nil_of_plain hdesc, parse_nil]
  have hS : (((groupIssuesByState issues).flatMap fun p =>
        (lit "## " ++ pyTitle p.1) :: [] :: (p.2.map issueLine ++ [[]])).flatMap
        parseMarkdownContent) =
      ((groupIssuesByState issues).flatMap fun p => p.2).map
        (fun i => (i.id.getD [], isCompletedType (stateTypeOf i))) := by
    rw [List.flatMap_assoc]
    rw [flatMap_congr_mem fun p hp =>
      parse_section_block p.1 p.2 (mem_group hp).1 fun i hi => hsafe i ((mem_group hp).2 i hi)]
    rw [← List.map_flatMap]
  unfold generateMarkdownContent
  rw [parse_joinLines _ (contentLines_no_newline ts title desc issues hts htitle hdesc hsafe)]
  unfold contentLines
  rw [List.flatMap_append, List.flatMap_append, List.flatMap_append]
  simp only [List.flatMap_cons, h1, h2, h4, hS, parse_nil, List.nil_append, List.append_nil,
    show parseMarkdownContent (lit "---") = [] from by decide, List.flatMap_nil]
  exact List.Perm.map _ (flatten_groups issues)

/-! ### The parsed-id invariant -/

theorem tryComment_tok {s tok after : Chars} (h : tryComment s = some (tok, after)) :
    tok ≠ [] ∧ ∀ c ∈ tok, pyWhitespace c = false := by
  unfold tryComment at h
  split at h
  · split at h
    · rename_i hcond
      simp only [Option.some.injEq, Prod.mk.injEq] at h
      obtain ⟨htok, -⟩ := h
      constructor
      · have hne := (Bool.and_eq_true .. |>.mp hcond).1
        rw [htok] at hne
        intro hh
        rw [hh] at hne
        simp at hne
      · intro c hc
        rw [← htok] at hc
        simpa using List.mem_takeWhile_imp hc
    · exact absurd h (by simp)
  · exact absurd h (by simp)

theorem findCommentInLine_tok {s tok after : Chars}
    (h : findCommentInLine s = some (tok, after)) :
    tok ≠ [] ∧ ∀ c ∈ tok, pyWhitespace c = false := by
  induction s with
  | nil => simp [findCommentInLine] at h
  | cons c rest ih =>
    unfold findCommentInLine at h
    split at h
    · rename_i r heq
      cases h
      exact tryComment_tok heq
    · split at h
      · simp at h
      · exact ih h

theorem tryMatch_tok {s : Chars} {ch : Bool} {tok after : Chars}
    (h : tryMatch s = some ((ch, tok), after)) :
    tok ≠ [] ∧ ∀ c ∈ tok, pyWhitespace c = false := by
  unfold tryMatch at h
  split at h
  · split at h
    · rename_i tok' after' heq
      simp only [Option.some.injEq, Prod.mk.injEq] at h
      obtain ⟨⟨-, h2⟩, -⟩ := h
      exact h2 ▸ findCommentInLine_tok heq
    · simp at h
  · simp at h

theorem scanAux_tok : ∀ (f : Nat) (s : Chars) (u : Chars × Bool), u ∈ scanAux f s →
    u.1 ≠ [] ∧ ∀ c ∈ u.1, pyWhitespace c = false := by
  intro f
  induction f with
  | zero => intro s u hu; simp [scanAux] at hu
  | succ f ih =>
    intro s u hu
    cases s with
    | nil => simp [scanAux] at hu
    | cons c rest =>
      cases h : tryMatch (c :: rest) with
      | none =>
        simp only [scanAux, h] at hu
        exact ih rest u hu
      | some v =>
        obtain ⟨⟨ch, tok⟩, after⟩ := v
        simp only [scanAux, h] at hu
        rcases List.mem_cons.mp hu with hh | hh
        · subst hh
          exact tryMatch_tok h
        · exact ih after u hh

theorem parse_tok {content : Chars} {u : Chars × Bool}
    (hu : u ∈ parseMarkdownContent content) :
    u.1 ≠ [] ∧ ∀ c ∈ u.1, pyWhitespace c = false :=
  scanAux_tok content.length content u hu

/-! ### Reconciler lemmas -/

theorem foldl_count {α : Type} (p : α → Bool) : ∀ (l : List α) (n : Nat),
    l.foldl (fun acc u => acc + if p u then 1 else 0) n = n + (l.filter p).length := by
  intro l
  induction l with
  | nil => intro n; simp
  | cons a t ih =>
    intro n
    cases h : p a
    · simp [List.filter_cons, h, ih]
    · simp [List.filter_cons, h, ih]
      omega

/-- The spec's "observed remote state matches the parsed intent": fetching
the issue succeeds and its completed-classification equals the checkbox. -/
def intentMatches (c : LinearClient) (u : Chars × Bool) : Bool :=
  match c.getIssue u.1 with
  | .ok i => isCompletedType (observedType i) == u.2
  | .error _ => false

theorem syncStep_matched {c : LinearClient} {u : Chars × Bool}
    (h : intentMatches c u = true) : syncStep c u = ⟨false, []⟩ := by
  unfold intentMatches at h
  unfold syncStep
  cases hg : c.getIssue u.1 with
  | error e => rw [hg] at h
  | ok i =>
    rw [hg] at h
    have heq : isCompletedType (observedType i) = u.2 := by simpa using h
    simp only [hg, heq]
    cases u.2 <;> simp

theorem syncFold_matched {c : LinearClient} {updates : List (Chars × Bool)}
    (h : ∀ u ∈ updates, intentMatches c u = true) :
    updates.foldl (fun acc u => acc + if (syncStep c u).counted then 1 else 0) 0 = 0 := by
  rw [foldl_count]
  have : updates.filter (fun u => (syncStep c u).counted) = [] := by
    rw [List.filter_eq_nil_iff]
    intro u hu
    rw [syncStep_matched (h u hu)]
    simp
  simp [this]

/-! ### Section order and determinism -/

theorem heading_ne_issueLine (i : Issue) : leadsWith (lit "## ") (issueLine i) = false := by
  unfold issueLine getCheckbox
  split <;> rfl

theorem filter_heading_sections : ∀ (groups : List (Chars × List Issue)),
    ((groups.flatMap fun p =>
        (lit "## " ++ pyTitle p.1) :: [] :: (p.2.map issueLine ++ [[]])).filter
      fun l => leadsWith (lit "## ") l) = groups.map fun p => lit "## " ++ pyTitle p.1 := by
  intro groups
  induction groups with
  | nil => rfl
  | cons p t ih =>
    have h1 : leadsWith (lit "## ") (lit "## " ++ pyTitle p.1) = true := leadsWith_self_append _ _
    have h2 : ((p.2.map issueLine).filter fun l => leadsWith (lit "## ") l) = [] := by
      rw [List.filter_eq_nil_iff]
      intro a ha
      obtain ⟨i, -, hli⟩ := List.mem_map.mp ha
      rw [← hli, heading_ne_issueLine]
      simp
    have h3 : leadsWith (lit "## ") ([] : Chars) = false := rfl
    simp [List.flatMap_cons, List.filter_append, List.filter_cons, h1, h2, h3, ih]

theorem map_fst_buckets {κ α : Type} (ks : List κ) (f : κ → List α) :
    (((ks.map fun k => (k, f k)).filter fun p => !p.2.isEmpty).map Prod.fst) =
      ks.filter fun k => !(f k).isEmpty := by
  induction ks with
  | nil => rfl
  | cons k t ih =>
    simp only [List.map_cons, List.filter_cons]
    cases h : (f k).isEmpty <;> simp [h, ih]

theorem not_isEmpty_filter_eq_any {α : Type} (p : α → Bool) (l : List α) :
    (!(l.filter p).isEmpty) = l.any p := by
  induction l with
  | nil => rfl
  | cons a t ih => cases h : p a <;> simp [List.filter_cons, h, ih]

/-! ### Concrete scenario data used by witnesses and counterexamples -/

/-- An issue rendered with an empty-string id (`issue.get('id', '')` both
when the key is missing and when it holds `""`). -/
def emptyIdIssue : Issue :=
  { id := some [], identifier := some (lit "ENG-9"), title := some (lit "Ghost"),
    state := some { type := some (lit "started"), name := some (lit "In Progress") } }

def demoIssueA : Issue :=
  { id := some (lit "idA"), identifier := some (lit "ENG-1"), title := some (lit "First task"),
    state := some { type := some (lit "completed"), name := some (lit "Done") } }

def demoIssueB : Issue :=
  { id := some (lit "idB"), identifier := some (lit "ENG-2"), title := some (lit "Second task"),
    state := some { type := some (lit "backlog"), name := some (lit "Backlog") } }

def bogusIssue : Issue :=
  { id := some (lit "idC"), identifier := some (lit "ENG-3"), title := some (lit "Strange"),
    state := some { type := some (lit "bogus"), name := some (lit "Weird") } }

end MarkdownSync

namespace MarkdownSync

/-! ## The claims -/

/-- Claim C1 (amended): for every issue list whose issues have nonempty,
whitespace-free ids and whose identifier / title / state-name display
fields (and the document title, description and timestamp) contain
neither `<` nor a newline, parsing the rendered document yields exactly
one `(id, completed)` record per input issue — as a multiset, so
regardless of input order — with `completed` true exactly when the
issue's `state.type` is `completed` or `canceled`. (The unamended claim,
quantifying over *every* issue list, fails: see the counterexample with
an empty id.) -/
theorem claim_C1_roundtrip (ts title desc : Chars) (issues : List Issue)
    (hts : plainText ts = true) (htitle : plainText title = true)
    (hdesc : plainText desc = true) (hsafe : ∀ i ∈ issues, renderSafe i = true) :
    List.Perm (parseMarkdownContent (generateMarkdownContent ts title issues desc))
      (issues.map fun i => (i.id.getD [], isCompletedType (stateTypeOf i))) :=
  roundtrip_perm ts title desc issues hts htitle hdesc hsafe

set_option maxRecDepth 4000 in
/-- Claim C1 (counterexample to the claim as stated): an issue whose id is
the empty string renders to a line the parser recovers no record from,
so `parse (render ...)` has no record for it at all. -/
theorem claim_C1_counterexample :
    ¬ List.Perm
      (parseMarkdownContent (generateMarkdownContent (lit "2024-05-01 12:00:00")
        (lit "My Issues") [emptyIdIssue] (lit "All issues assigned to me")))
      ([emptyIdIssue].map fun i => (i.id.getD [], isCompletedType (stateTypeOf i))) := by
  decide

/-- Claim C1 (witness): the amended round-trip at a concrete render of three
issues (completed, backlog, and unknown state type). -/
theorem claim_C1_witness :
    List.Perm
      (parseMarkdownContent (generateMarkdownContent (lit "2024-05-01 12:00:00")
        (lit "My Issues") [demoIssueA, demoIssueB, bogusIssue]
        (lit "All issues assigned to me")))
      ([demoIssueA, demoIssueB, bogusIssue].map fun i =>
        (i.id.getD [], isCompletedType (stateTypeOf i))) :=
  claim_C1_roundtrip (lit "2024-05-01 12:00:00") (lit "My Issues")
    (lit "All issues assigned to me") [demoIssueA, demoIssueB, bogusIssue]
    (by decide) (by decide) (by decide) (by decide)

/-- Claim C4: rendering is deterministic and differs between two timestamps
only at line index 2 (the timestamp line); the emitted section headings
are exactly one `## {Title}` per nonempty bucket; and the bucket keys
appear in the fixed order `backlog, unstarted, started, completed,
canceled` filtered to the categories some issue maps to — never input
order, with empty buckets omitted. -/
theorem claim_C4_grouping_determinism (ts₁ ts₂ title desc : Chars) (issues : List Issue)
    (hdesc : leadsWith (lit "## ") desc = false) :
    contentLines ts₁ title issues desc =
      (contentLines ts₂ title issues desc).set 2 (lit "*Generated: " ++ ts₁ ++ lit "*") ∧
    ((contentLines ts₁ title issues desc).filter fun l => leadsWith (lit "## ") l) =
      (groupIssuesByState issues).map (fun p => lit "## " ++ pyTitle p.1) ∧
    (groupIssuesByState issues).map Prod.fst =
      categories.filter fun k => issues.any fun i => categoryOf i = k := by
  refine ⟨rfl, ?_, ?_⟩
  · unfold contentLines
    rw [List.filter_append, List.filter_append, List.filter_append, filter_heading_sections]
    have e1 : leadsWith (lit "## ") (lit "# " ++ title) = false := rfl
    have e2 : leadsWith (lit "## ") (lit "*Generated: " ++ (ts₁ ++ lit "*")) = false := rfl
    have e3 : leadsWith (lit "## ") ([] : Chars) = false := rfl
    have e4 : leadsWith (lit "## ") (lit "---") = false := rfl
    have hite : ((if desc = [] then [] else [desc, []]).filter
        fun l => leadsWith (lit "## ") l) = [] := by
      split
      · rfl
      · simp [List.filter_cons, hdesc, e3]
    simp [List.filter_cons, e1, e2, e3, e4, hite]
  · unfold groupIssuesByState
    rw [map_fst_buckets]
    apply List.filter_congr
    intro k _
    rw [not_isEmpty_filter_eq_any]

/-- Claim C4 (witness): the section facts at a concrete two-issue render
with two different timestamps. -/
theorem claim_C4_witness :
    contentLines (lit "t1") (lit "T") [demoIssueA, demoIssueB] (lit "note") =
      (contentLines (lit "t2") (lit "T") [demoIssueA, demoIssueB] (lit "note")).set 2
        (lit "*Generated: " ++ lit "t1" ++ lit "*") ∧
    ((contentLines (lit "t1") (lit "T") [demoIssueA, demoIssueB] (lit "note")).filter
        fun l => leadsWith (lit "## ") l) =
      (groupIssuesByState [demoIssueA, demoIssueB]).map (fun p => lit "## " ++ pyTitle p.1) ∧
    (groupIssuesByState [demoIssueA, demoIssueB]).map Prod.fst =
      categories.filter fun k => [demoIssueA, demoIssueB].any fun i => categoryOf i = k :=
  claim_C4_grouping_determinism (lit "t1") (lit "t2") (lit "T") (lit "note")
    [demoIssueA, demoIssueB] (by decide)

/-- A remote where every issue is observed in an `unstarted` state on team
`t1`, the team has a `completed` workflow state, and the state-transition
call fails (raises) exactly for issue `i2`. -/
def failDemoClient : LinearClient where
  getIssue := fun _ => .ok
    { state := some { type := some (lit "unstarted"), name := some (lit "Todo") },
      team := some { id := some (lit "t1") } }
  getWorkflowStates := fun _ => .ok [{ id := lit "s-done", type := lit "completed" }]
  updateIssueState := fun issueId _ =>
    if issueId = lit "i2" then .error (lit "boom") else .ok ()

/-- A checklist of three checked items with ids `i1`, `i2`, `i3`. -/
def failDemoDoc : Chars :=
  lit "- [x] **A**: a *[S]* <!-- id:i1 -->\n- [x] **B**: b *[S]* <!-- id:i2 -->\n- [x] **C**: c *[S]* <!-- id:i3 -->"

/-- Claim C2: for every client and file contents, `sync_markdown_to_linear`
returns normally (`Except.ok`, so no per-issue failure propagates and
every parsed intent is processed) with a count equal to the number of
intents whose transition succeeded; concretely, three issues with the
second one's remote update raising yields count 2. -/
theorem claim_C2_partial_failure :
    (∀ (c : LinearClient) (text : Chars),
        syncMarkdownToLinear (some c) (.content text) =
          .ok ((parseMarkdownContent text).filter fun u => (syncStep c u).counted).length) ∧
    syncMarkdownToLinear (some failDemoClient) (.content failDemoDoc) = .ok 2 := by
  constructor
  · intro c text
    show Except.ok ((parseMarkdownContent text).foldl
      (fun acc u => acc + if (syncStep c u).counted then 1 else 0) 0) = _
    rw [foldl_count]
    simp
  · rfl

/-- A remote where every issue is observed already `completed`. -/
def idemDemoClient : LinearClient where
  getIssue := fun _ => .ok
    { state := some { type := some (lit "completed"), name := some (lit "Done") },
      team := some { id := some (lit "t1") } }
  getWorkflowStates := fun _ => .ok
    [{ id := lit "s-done", type := lit "completed" },
     { id := lit "s-todo", type := lit "unstarted" }]
  updateIssueState := fun _ _ => .ok ()

/-- A checklist with one checked item, id `i1`. -/
def idemDemoDoc : Chars := lit "- [x] **A**: a *[Done]* <!-- id:i1 -->"

/-- Claim C3: when every parsed intent matches the observed remote state
(in particular an already-completed issue with a checked box), the
reconciler issues no `update_issue_state` call for any issue and the
returned count is 0. -/
theorem claim_C3_idempotence (c : LinearClient) (text : Chars)
    (h : ∀ u ∈ parseMarkdownContent text, intentMatches c u = true) :
    (∀ u ∈ parseMarkdownContent text, (syncStep c u).transitions = []) ∧
    syncMarkdownToLinear (some c) (.content text) = .ok 0 := by
  constructor
  · intro u hu
    rw [syncStep_matched (h u hu)]
  · show Except.ok ((parseMarkdownContent text).foldl
      (fun acc u => acc + if (syncStep c u).counted then 1 else 0) 0) = _
    rw [syncFold_matched h]

/-- Claim C3 (witness): a concrete already-completed issue with a checked
box causes no transition and count 0. -/
theorem claim_C3_witness :
    (∀ u ∈ parseMarkdownContent idemDemoDoc, (syncStep idemDemoClient u).transitions = []) ∧
    syncMarkdownToLinear (some idemDemoClient) (.content idemDemoDoc) = .ok 0 :=
  claim_C3_idempotence idemDemoClient idemDemoDoc (by decide)

/-- Claim C5: an issue whose `state.type` is absent or not one of the five
category names is grouped under `unstarted` (it appears in that bucket of
the grouping) and rendered with an unchecked checkbox. -/
theorem claim_C5_unknown_state_fallback (issues : List Issue) (i : Issue) (hi : i ∈ issues)
    (h : ((i.state.getD {}).type) = none ∨
      ∃ t, ((i.state.getD {}).type) = some t ∧ t ∉ categories) :
    categoryOf i = lit "unstarted" ∧ getCheckbox i = lit "- [ ]" ∧
    ∃ v, (lit "unstarted", v) ∈ groupIssuesByState issues ∧ i ∈ v := by
  have hcat : categoryOf i = lit "unstarted" := by
    rcases h with h | ⟨t, ht, htm⟩
    · have hst : stateTypeOf i = lit "unstarted" := by
        simp [stateTypeOf, h]
      unfold categoryOf
      rw [hst]
      split <;> rfl
    · have hst : stateTypeOf i = t := by
        simp [stateTypeOf, ht]
      unfold categoryOf
      rw [hst, if_neg htm]
  have hbox : getCheckbox i = lit "- [ ]" := by
    unfold getCheckbox
    rcases h with h | ⟨t, ht, htm⟩
    · have hst : stateTypeOf i = lit "unstarted" := by
        simp [stateTypeOf, h]
      rw [hst, if_neg (by decide)]
    · have hst : stateTypeOf i = t := by
        simp [stateTypeOf, ht]
      rw [hst, if_neg ?_]
      rintro (hc | hc) <;> exact htm (hc ▸ by decide)
  have hmemf : i ∈ issues.filter fun x => categoryOf x = lit "unstarted" :=
    List.mem_filter.mpr ⟨hi, by simp [hcat]⟩
  refine ⟨hcat, hbox, issues.filter fun x => categoryOf x = lit "unstarted", ?_, hmemf⟩
  unfold groupIssuesByState
  apply List.mem_filter.mpr
  refine ⟨List.mem_map.mpr ⟨lit "unstarted", by decide, rfl⟩, ?_⟩
  cases hxs : (issues.filter fun x => categoryOf x = lit "unstarted") with
  | nil => rw [hxs] at hmemf; simp at hmemf
  | cons a t => simp

/-- Claim C5 (witness): a concrete issue with `state.type = "bogus"` among
three issues lands in the `unstarted` bucket with an unchecked box. -/
theorem claim_C5_witness :
    categoryOf bogusIssue = lit "unstarted" ∧ getCheckbox bogusIssue = lit "- [ ]" ∧
    ∃ v, (lit "unstarted", v) ∈ groupIssuesByState [demoIssueA, bogusIssue] ∧
      bogusIssue ∈ v :=
  claim_C5_unknown_state_fallback [demoIssueA, bogusIssue] bogusIssue (by simp)
    (Or.inr ⟨lit "bogus", rfl, by decide⟩)

/-- Claim C6: the parser yields one record per match in document order; any
text without an occurrence of `<!-- id:` — in particular a checkbox line
whose id comment was stripped — yields no record and no error; the
specified well-formed line parses to `(abc123, true)`; and a document
whose middle line lacks the id comment yields exactly the records of the
other lines, in document order. -/
theorem claim_C6_parser_skip :
    (∀ text : Chars, containsMarker text = false → parseMarkdownContent text = []) ∧
    parseMarkdownContent (lit "- [x] **ENG-1**: Fix bug *[Done]* <!-- id:abc123 -->") =
      [(lit "abc123", true)] ∧
    parseMarkdownContent
      (lit "- [x] first <!-- id:a1 -->\n- [ ] stripped line\n- [ ] third <!-- id:b2 -->") =
      [(lit "a1", true), (lit "b2", false)] := by
  refine ⟨fun text h => parse_nil_of_no_marker h, by decide, by decide⟩

/-- Claim C6 (witness): a checkbox line with no id comment parses to no
records. -/
theorem claim_C6_witness :
    parseMarkdownContent (lit "- [ ] a checkbox line with no id comment") = [] :=
  claim_C6_parser_skip.1 (lit "- [ ] a checkbox line with no id comment") (by decide)

/-- A remote whose team `t1` has no `completed`-type and no
`unstarted`-type workflow state. -/
def skipDemoClient : LinearClient where
  getIssue := fun _ => .ok
    { state := some { type := some (lit "started"), name := some (lit "Doing") },
      team := some { id := some (lit "t1") } }
  getWorkflowStates := fun _ => .ok
    [{ id := lit "s1", type := lit "started" }, { id := lit "s2", type := lit "backlog" }]
  updateIssueState := fun _ _ => .ok ()

/-- Claim C7: when the intent asks to complete an issue that is not
completed but the team's workflow states contain no `completed`-type
state, the reconciler attempts no transition and raises nothing for that
issue, counting 0 — and symmetrically for reopening with no
`unstarted`-type state. -/
theorem claim_C7_missing_state_skip (c : LinearClient) (issueId : Chars) (i : Issue)
    (teamId : Chars) (states : List WorkflowState)
    (hget : c.getIssue issueId = .ok i)
    (hteam : ((i.team.getD {}).id) = some teamId) (hne : teamId.isEmpty = false)
    (hstates : c.getWorkflowStates teamId = .ok states) :
    (isCompletedType (observedType i) = false →
      (∀ s ∈ states, s.type ≠ lit "completed") →
      syncStep c (issueId, true) = ⟨false, []⟩) ∧
    (isCompletedType (observedType i) = true →
      (∀ s ∈ states, s.type ≠ lit "unstarted") →
      syncStep c (issueId, false) = ⟨false, []⟩) := by
  constructor
  · intro hobs hnone
    have hfind : List.find? (fun s => decide (s.type = lit "completed")) states = none :=
      List.find?_eq_none.mpr fun s hs => by simpa using hnone s hs
    unfold syncStep
    rw [hget]
    simp only [hobs, hteam, hne, hstates, hfind]
    simp
  · intro hobs hnone
    have hfind : List.find? (fun s => decide (s.type = lit "unstarted")) states = none :=
      List.find?_eq_none.mpr fun s hs => by simpa using hnone s hs
    unfold syncStep
    rw [hget]
    simp only [hobs, hteam, hne, hstates, hfind]
    simp

/-- Claim C7 (witness): both skip directions at the concrete remote whose
team has neither a `completed`-type nor an `unstarted`-type state. -/
theorem claim_C7_witness :
    syncStep skipDemoClient (lit "i1", true) = ⟨false, []⟩ :=
  (claim_C7_missing_state_skip skipDemoClient (lit "i1")
    { state := some { type := some (lit "started"), name := some (lit "Doing") },
      team := some { id := some (lit "t1") } }
    (lit "t1")
    [{ id := lit "s1", type := lit "started" }, { id := lit "s2", type := lit "backlog" }]
    rfl rfl rfl rfl).1 (by decide) (by decide)

theorem char_toNat_ofNat_valid {n : Nat} (h : n < 0xd800) : (Char.ofNat n).toNat = n := by
  unfold Char.ofNat
  rw [dif_pos (Or.inl h)]
  rfl

theorem pyLower_ascii {c : Char} (h : c.toNat < 128) : (pyLower c).toNat < 128 := by
  unfold pyLower
  rw [if_neg (by omega)]
  show (if c.toNat ≥ 65 ∧ c.toNat ≤ 90 then Char.ofNat (c.toNat + 32) else c).toNat < 128
  split
  · rename_i hc
    rw [char_toNat_ofNat_valid (by omega)]
    omega
  · exact h

theorem subst_eq_spec_of_ascii {c : Char} (h : c.toNat < 128) :
    (if pyWordChar c || c = '-' then c else '_') =
    (if c.isUpper || c.isLower || c.isDigit || c = '_' || c = '-' then c else '_') := by
  have hlat : latin1WordChar c = false := by
    simp only [latin1WordChar, decide_eq_false_iff_not]
    omega
  have hb : (pyWordChar c || decide (c = '-')) =
      ((((c.isUpper || c.isLower) || c.isDigit) || decide (c = '_')) || decide (c = '-')) := by
    simp [pyWordChar, hlat, Char.isAlphanum, Char.isAlpha]
  rw [hb]

theorem sanitize_eq_spec_of_ascii {name : Chars} (h : ∀ c ∈ name, c.toNat < 128) :
    sanitizeName name = specSanitize name := by
  unfold sanitizeName specSanitize
  apply List.map_congr_left
  intro d hd
  obtain ⟨c, hc, hcd⟩ := List.mem_map.mp hd
  exact subst_eq_spec_of_ascii (hcd ▸ pyLower_ascii (h c hc))

/-- Claim C8 (counterexample to the claim as stated): at the team name
`"Café"` the code's Unicode `\w` keeps `é`, so the generated basename is
`issues-café.md`, while the spec's rule "every character outside
`[A-Za-z0-9_-]` replaced with `_`" demands `issues-caf_.md`. -/
theorem claim_C8_counterexample :
    teamIssuesFilename (lit "Café") ≠ lit "issues-" ++ specSanitize (lit "Café") ++ lit ".md" ∧
    teamIssuesFilename (lit "Café") = lit "issues-café.md" ∧
    lit "issues-" ++ specSanitize (lit "Café") ++ lit ".md" = lit "issues-caf_.md" :=
  ⟨by decide, by decide, by decide⟩

/-- Claim C8 (amended): for every name made of ASCII characters, the
generated basename is `issues-{sanitized}.md` where the sanitization
equals the spec's rule "lowercase, then replace every character outside
`[A-Za-z0-9_-]` with `_`"; in particular `"Core Infra!!"` yields
`issues-core_infra__.md`. (On non-ASCII names the code's Unicode `\w`
keeps word characters such as `é` that the spec's ASCII charset would
replace; see the counterexample.) -/
theorem claim_C8_filename_sanitization (name : Chars) (hascii : ∀ c ∈ name, c.toNat < 128) :
    teamIssuesFilename name = lit "issues-" ++ specSanitize name ++ lit ".md" ∧
    projectIssuesFilename name = lit "issues-" ++ specSanitize name ++ lit ".md" ∧
    teamIssuesFilename (lit "Core Infra!!") = lit "issues-core_infra__.md" := by
  refine ⟨?_, ?_, by decide⟩
  · unfold teamIssuesFilename
    rw [sanitize_eq_spec_of_ascii hascii]
  · unfold projectIssuesFilename
    rw [sanitize_eq_spec_of_ascii hascii]

/-- Claim C8 (witness): the amended statement at the spec's concrete team
name `"Core Infra!!"`. -/
theorem claim_C8_witness :
    teamIssuesFilename (lit "Core Infra!!") =
      lit "issues-" ++ specSanitize (lit "Core Infra!!") ++ lit ".md" ∧
    projectIssuesFilename (lit "Core Infra!!") =
      lit "issues-" ++ specSanitize (lit "Core Infra!!") ++ lit ".md" ∧
    teamIssuesFilename (lit "Core Infra!!") = lit "issues-core_infra__.md" :=
  claim_C8_filename_sanitization (lit "Core Infra!!") (by decide)

/-- Claim C9 (amended): a vanished file (`os.path.exists` false) parses to
the empty intent list without raising. (The unamended claim also covers
an existing-but-unreadable file; see the counterexample.) -/
theorem claim_C9_missing_file : parseMarkdownFile FileState.absent = Except.ok [] := rfl

/-- Claim C9 (counterexample to the claim as stated): an existing but
unreadable file raises out of `parse_markdown_file` (its `open` is
guarded only by the existence check), rather than returning `[]`. -/
theorem claim_C9_counterexample :
    parseMarkdownFile FileState.unreadable = Except.error (lit "read failed") := rfl

/-- Claim C10: every record the parser returns has a nonempty,
whitespace-free id; consequently an issue rendered with an empty-string
id yields a document the parser recovers no record from, silently
dropping that issue from the sync intent. -/
theorem claim_C10_parsed_id_invariant :
    (∀ (content : Chars) (u : Chars × Bool), u ∈ parseMarkdownContent content →
      u.1 ≠ [] ∧ ∀ c ∈ u.1, pyWhitespace c = false) ∧
    parseMarkdownContent (generateMarkdownContent (lit "2024-05-01 12:00:00")
      (lit "My Issues") [emptyIdIssue] []) = [] := by
  refine ⟨fun content u hu => parse_tok hu, by decide⟩

/-- Claim C10 (witness): the invariant at a concrete parse. -/
theorem claim_C10_witness :
    (lit "abc123" ≠ []) ∧ ∀ c ∈ lit "abc123", pyWhitespace c = false :=
  claim_C10_parsed_id_invariant.1 (lit "- [x] fix <!-- id:abc123 -->") (lit "abc123", true)
    (by decide)

end MarkdownSync
